import Mathlib

/-!
Verification of the akaoio/dashboard storage-adapter layer and Workrooms
collaboration engine, shallowly embedded in Lean 4.

Conventions used throughout this development:

* A JavaScript path key (a slash-delimited string such as "agents/worker-3")
  is represented by its list of slash-free segments (`["agents", "worker-3"]`).
  Splitting on "/" and re-joining with "/" is a bijection between strings and
  lists of slash-free segments, so string operations translate exactly:
  string equality becomes list equality, and `k.startsWith(p + "/")` becomes
  "the segments of p are a proper prefix of the segments of k".
* A JavaScript `Map` is represented as an insertion-ordered association list
  with unique keys; `Map.set` updates in place or appends, `Map.delete`
  removes the binding.
* JSON-serializable JavaScript values are represented by the inductive
  `JValue` (numbers are modelled as integers; none of the modelled
  operations perform numeric computation on stored values).
* Nondeterministic runtime inputs (`Date.now()`, `uuid()`) are passed to the
  embedded operations as explicit parameters.
* A JavaScript function that can throw is embedded as a function returning
  `Except`/`Option`; a method that mutates `this` additionally returns the
  updated state.
-/

/-- Path keys: a slash-delimited string key, represented by its segments. -/
abbrev PathKey := List String

/-- JSON-like stored values (LocalAdapter values travel through
`JSON.stringify`/`JSON.parse` on save/load, so this grammar is exactly the
value space that survives persistence). -/
inductive JValue where
  | null : JValue
  | bool : Bool → JValue
  | num : Int → JValue
  | str : String → JValue
  | arr : List JValue → JValue
  | obj : List (String × JValue) → JValue

/-- True exactly on non-array, non-null objects (the values the adapter's
`objectToPath` recurses into instead of storing as leaves). -/
def JValue.isObjNode : JValue → Bool
  | .obj _ => true
  | _ => false

/-- Association-list lookup, modelling `Map.get` (returns `undefined`,
i.e. `none`, for an absent key). -/
def mapGet : List (PathKey × JValue) → PathKey → Option JValue
  | [], _ => none
  | (k, v) :: rest, p => if k = p then some v else mapGet rest p

/-- Association-list update, modelling `Map.set`: update in place when the
key is present (keeping insertion order), append otherwise. -/
def mapSet : List (PathKey × JValue) → PathKey → JValue → List (PathKey × JValue)
  | [], p, v => [(p, v)]
  | (k, w) :: rest, p, v =>
    if k = p then (k, v) :: rest else (k, w) :: mapSet rest p v

/-- Association-list removal of one key, modelling `Map.delete`. -/
def mapEraseKey (data : List (PathKey × JValue)) (p : PathKey) : List (PathKey × JValue) :=
  data.filter (fun kv => decide (kv.1 ≠ p))

/-- Boolean test that the segments `p` are a (not necessarily proper) initial
run of the segments `k`. -/
def segIsInitialOf : PathKey → PathKey → Bool
  | [], _ => true
  | _ :: _, [] => false
  | a :: ps, b :: ks => decide (a = b) && segIsInitialOf ps ks

/-- Boolean translation of `key.startsWith(path + "/")` for path keys: the
segments of `p` are a proper initial run of the segments of `k`. -/
def underPath (p k : PathKey) : Bool :=
  segIsInitialOf p k && decide (p.length < k.length)

/-! LocalAdapter ("Snapshot adapter", src/unnamed/part_002): a flat
path→value `Map` persisted as a single nested JSON document. -/

/-- LocalAdapter in-memory state: the flat `data` map. -/
abbrev LocalStore := List (PathKey × JValue)

/-- LocalAdapter.getNestedValue: `this.data.get(path)`. -/
def getNestedValue (data : LocalStore) (p : PathKey) : Option JValue :=
  mapGet data p

/-- LocalAdapter.setNestedValue: `this.data.set(path, value)`. -/
def setNestedValue (data : LocalStore) (p : PathKey) (v : JValue) : LocalStore :=
  mapSet data p v

/-- LocalAdapter.deleteNestedValue: delete the key itself, then every stored
key that starts with `path + "/"`. -/
def deleteNestedValue (data : LocalStore) (p : PathKey) : LocalStore :=
  (mapEraseKey data p).filter (fun kv => ! underPath p kv.1)

/-- LocalAdapter.get (state-reading part; the async wrapper adds nothing). -/
def LocalAdapter.get (data : LocalStore) (p : PathKey) : Option JValue :=
  getNestedValue data p

/-- LocalAdapter.set (state-transforming part; event emission does not touch
the `data` map). -/
def LocalAdapter.set (data : LocalStore) (p : PathKey) (v : JValue) : LocalStore :=
  setNestedValue data p v

/-- LocalAdapter.delete (state-transforming part). -/
def LocalAdapter.delete (data : LocalStore) (p : PathKey) : LocalStore :=
  deleteNestedValue data p

/-- LocalAdapter.exists: `getNestedValue(path) !== undefined`. -/
def LocalAdapter.existsKey (data : LocalStore) (p : PathKey) : Bool :=
  (getNestedValue data p).isSome

/-- Property read on a plain object, modelling `current[key]` /
`key in current` on the object built by `pathToObject`. -/
def objGet : List (String × JValue) → String → Option JValue
  | [], _ => none
  | (k, v) :: rest, key => if k = key then some v else objGet rest key

/-- Property write on a plain object (`current[key] = value`): overwrite in
place when present, append otherwise. -/
def objSet : List (String × JValue) → String → JValue → List (String × JValue)
  | [], key, v => [(key, v)]
  | (k, w) :: rest, key, v =>
    if k = key then (k, v) :: rest else (k, w) :: objSet rest key v

/-- One iteration of the `pathToObject` inner loop, plus the final leaf
assignment: walk the path segments through `cur`, creating `{}` children for
missing intermediate properties, and assign the value at the last segment.
Returns `none` where the JavaScript loop would throw a `TypeError`
(descending into, or assigning a property on, a primitive or `null`).
Descending into an array follows the runtime: a matching index key reaches
the element, while any other property assignment on the array is allowed at
runtime but invisible to the JSON serialization that immediately follows in
`save()`, so the serialized tree is unchanged. -/
def setPath (cur : JValue) : PathKey → JValue → Option JValue
  | [], _ => none
  | [last], v =>
    match cur with
    | .obj fields => some (.obj (objSet fields last v))
    | .arr xs => some (.arr xs)
    | _ => none
  | seg :: rest₁ :: rest₂, v =>
    match cur with
    | .obj fields =>
      let child := (objGet fields seg).getD (.obj [])
      (setPath child (rest₁ :: rest₂) v).map (fun c => .obj (objSet fields seg c))
    | .arr xs =>
      match (List.range xs.length).find? (fun i => decide (toString i = seg)) with
      | some i =>
        match xs.get? i with
        | some elt => (setPath elt (rest₁ :: rest₂) v).map (fun c => .arr (xs.set i c))
        | none => some (.arr xs)
      | none => some (.arr xs)
    | _ => none

/-- LocalAdapter.pathToObject: fold the flat map into one nested object,
starting from `{}`; `none` if any entry makes the nesting loop throw. -/
def pathToObject (data : LocalStore) : Option JValue :=
  data.foldl (fun acc kv => acc.bind (fun o => setPath o kv.1 kv.2)) (some (.obj []))

mutual

/-- One entry of the `objectToPath` field loop: a non-array, non-null object
value is recursed into (`this.objectToPath(value, path)`), every other value
is stored as a leaf (`this.data.set(path, value)`). -/
def objectToPathEntry (data : LocalStore) (path : PathKey) : JValue → LocalStore
  | .obj fields => objectToPathFields data fields path
  | leaf => mapSet data path leaf

/-- Field loop of `objectToPath` (the `for key in obj` body). The
`prefix ? prefix + "/" + key : key` path construction of the source is
`pre ++ [key]` in segment form. -/
def objectToPathFields (data : LocalStore) : List (String × JValue) → PathKey → LocalStore
  | [], _ => data
  | (key, v) :: rest, pre =>
    objectToPathFields
      (objectToPathEntry data (if pre = [] then [key] else pre ++ [key]) v) rest pre

end

/-- LocalAdapter.objectToPath: flatten a parsed JSON document back into the
flat map. The top-level guard of the source
(`typeof obj !== "object" || obj === null`) stores primitives at a non-empty
prefix and iterates arrays by index key. -/
def objectToPath (data : LocalStore) : JValue → PathKey → LocalStore
  | .obj fields, pre => objectToPathFields data fields pre
  | .arr xs, pre =>
    objectToPathFields data ((xs.enum).map (fun p => (toString p.1, p.2))) pre
  | v, pre => if pre = [] then data else mapSet data pre v

/-- LocalAdapter restart cycle for claim C1: `save()` serializes
`pathToObject(data)` to the data file (`JSON.parse ∘ JSON.stringify` is the
identity on `JValue` trees), the in-memory state is discarded, and `load()`
rebuilds a fresh `data` map with `objectToPath` from the parsed file. -/
def LocalAdapter.restart (data : LocalStore) : Option LocalStore :=
  (pathToObject data).map (fun root => objectToPath [] root [])

/-- Nested single-chain object `{p₀: {p₁: ... {pₙ: v}}}`: what `pathToObject`
builds from a store holding the single binding `p ↦ v`. -/
def nestChain : PathKey → JValue → JValue
  | [], v => v
  | seg :: rest, v => .obj [(seg, nestChain rest v)]

theorem mapGet_mapSet_self (data : LocalStore) (p : PathKey) (v : JValue) :
    mapGet (mapSet data p v) p = some v := by
  induction data with
  | nil => simp [mapSet, mapGet]
  | cons kv rest ih =>
    by_cases h : kv.1 = p
    · simp [mapSet, mapGet, h]
    · simpa [mapSet, mapGet, h] using ih

theorem setPath_empty_obj (v : JValue) :
    ∀ p : PathKey, p ≠ [] → setPath (.obj []) p v = some (nestChain p v)
  | [], h => absurd rfl h
  | [seg], _ => by simp [setPath, nestChain, objSet]
  | seg :: s₂ :: rest, _ => by
    have ih := setPath_empty_obj v (s₂ :: rest) (by simp)
    simp [setPath, nestChain, objGet, objSet, ih]

theorem ifPath_eq_append (pre : PathKey) (key : String) :
    (if pre = [] then [key] else pre ++ [key]) = pre ++ [key] := by
  cases pre <;> simp

theorem objectToPathEntry_leaf (data : LocalStore) (path : PathKey) (v : JValue)
    (h : v.isObjNode = false) :
    objectToPathEntry data path v = mapSet data path v := by
  cases v <;> simp_all [objectToPathEntry, JValue.isObjNode]

theorem objectToPath_nestChain (v : JValue) (h : v.isObjNode = false) :
    ∀ (p : PathKey) (pre : PathKey) (data : LocalStore), p ≠ [] →
      objectToPath data (nestChain p v) pre = mapSet data (pre ++ p) v
  | [], _, _, hne => absurd rfl hne
  | [seg], pre, data, _ => by
    simp only [nestChain, objectToPath, objectToPathFields, ifPath_eq_append]
    rw [objectToPathEntry_leaf data (pre ++ [seg]) v h]
  | seg :: s₂ :: rest, pre, data, _ => by
    have ih := objectToPath_nestChain v h (s₂ :: rest) (pre ++ [seg]) data (by simp)
    have e₁ : objectToPath data (nestChain (seg :: s₂ :: rest) v) pre
        = objectToPathEntry data (pre ++ [seg]) (nestChain (s₂ :: rest) v) := by
      simp only [nestChain, objectToPath, objectToPathFields, ifPath_eq_append]
    have e₂ : objectToPathEntry data (pre ++ [seg]) (nestChain (s₂ :: rest) v)
        = objectToPath data (nestChain (s₂ :: rest) v) (pre ++ [seg]) := by
      simp only [nestChain, objectToPathEntry, objectToPath]
    rw [e₁, e₂, ih]
    simp

theorem restart_single (p : PathKey) (v : JValue) (hp : p ≠ []) (hv : v.isObjNode = false) :
    LocalAdapter.restart (LocalAdapter.set [] p v) = some [(p, v)] := by
  have hchain : pathToObject [(p, v)] = some (nestChain p v) := by
    simp [pathToObject, setPath_empty_obj v p hp]
  have hflat := objectToPath_nestChain v hv p [] [] hp
  simp only [LocalAdapter.restart, LocalAdapter.set, setNestedValue, mapSet, hchain,
    Option.map_some]
  simpa [mapSet] using hflat

/-- C1: for the Snapshot (Local) adapter, `set(p, v)` followed by `get(p)`
returns a value deep-equal to `v`, and the claim asserts this also holds
across a restart cycle (`set; save; clear; load; get`) — in particular for
non-array object values. The restart half is false for non-array objects:
the counterexample stores the object `{x: 1}` at key `"a"`; after
save/clear/load, `get("a")` returns `undefined` because `save()` nested the
object and `load()` re-flattened it into the descendant key `"a/x"`. -/
theorem localAdapter_restart_roundtrip_counterexample :
    LocalAdapter.get (LocalAdapter.set [] ["a"] (.obj [("x", .num 1)])) ["a"] =
      some (.obj [("x", .num 1)]) ∧
    LocalAdapter.restart (LocalAdapter.set [] ["a"] (.obj [("x", .num 1)])) =
      some [(["a", "x"], .num 1)] ∧
    (LocalAdapter.restart (LocalAdapter.set [] ["a"] (.obj [("x", .num 1)]))).map
      (fun d => LocalAdapter.get d ["a"]) = some none :=
  ⟨rfl, rfl, rfl⟩

/-- C1 (amended): for the Snapshot (Local) adapter, `set(p, v)` followed by
`get(p)` returns `v` in memory for every store, path and value; across a
restart cycle (`set; save; clear of in-memory state; load; get`, starting
from an empty store) the round-trip holds exactly for values that are not
non-array objects (primitives, `null`, and arrays): the reloaded store is
the original single binding, so `get(p)` returns `v`. Non-array object
values are excluded: `save()` nests them via `pathToObject` and `load()`
re-flattens them into descendant keys via `objectToPath`. -/
theorem localAdapter_set_get_roundtrip_amended (data : LocalStore) (p : PathKey) (v : JValue) :
    LocalAdapter.get (LocalAdapter.set data p v) p = some v ∧
    (p ≠ [] → v.isObjNode = false →
      LocalAdapter.restart (LocalAdapter.set [] p v) = some [(p, v)] ∧
      (LocalAdapter.restart (LocalAdapter.set [] p v)).map
        (fun d => LocalAdapter.get d p) = some (some v)) := by
  refine ⟨mapGet_mapSet_self data p v, fun hp hv => ?_⟩
  have hr := restart_single p v hp hv
  refine ⟨hr, ?_⟩
  rw [hr]
  simp [LocalAdapter.get, getNestedValue, mapGet]

/-- C1 witness: the amended round-trip evaluated at the concrete store
`{"agents": 1}`, path `["tasks", "t1"]` and the array value `[2, 3]`. -/
theorem localAdapter_set_get_roundtrip_amended_witness :
    LocalAdapter.get
        (LocalAdapter.set [(["agents"], .num 1)] ["tasks", "t1"] (.arr [.num 2, .num 3]))
        ["tasks", "t1"] = some (.arr [.num 2, .num 3]) ∧
    LocalAdapter.restart (LocalAdapter.set [] ["tasks", "t1"] (.arr [.num 2, .num 3])) =
      some [(["tasks", "t1"], .arr [.num 2, .num 3])] := by
  have h := localAdapter_set_get_roundtrip_amended
    [(["agents"], .num 1)] ["tasks", "t1"] (.arr [.num 2, .num 3])
  exact ⟨h.1, ((h.2 (by simp) rfl).1).trans (by rfl)⟩

theorem mapGet_filter_eq_none (P : PathKey × JValue → Bool) (k : PathKey)
    (h : ∀ v, P (k, v) = false) (l : LocalStore) : mapGet (l.filter P) k = none := by
  induction l with
  | nil => rfl
  | cons kv rest ih =>
    obtain ⟨k₁, v₁⟩ := kv
    by_cases hk : k₁ = k
    · subst hk
      simp [List.filter_cons, h v₁, ih]
    · cases hP : P (k₁, v₁) <;> simp [List.filter_cons, hP, mapGet, hk, ih]

theorem mapGet_filter_eq_of_true (P : PathKey × JValue → Bool) (k : PathKey)
    (h : ∀ v, P (k, v) = true) (l : LocalStore) : mapGet (l.filter P) k = mapGet l k := by
  induction l with
  | nil => rfl
  | cons kv rest ih =>
    obtain ⟨k₁, v₁⟩ := kv
    by_cases hk : k₁ = k
    · subst hk
      simp [List.filter_cons, h v₁, mapGet]
    · cases hP : P (k₁, v₁) <;> simp [List.filter_cons, hP, mapGet, hk, ih]

theorem underPath_self_eq_false (p : PathKey) : underPath p p = false := by
  simp [underPath]

/-- C5: for the Snapshot (Local) adapter, after `delete(p)`: `exists(p)` is
false; `exists(k)` is false for every key `k` having `p + "/"` as a prefix
(the delete cascades to all descendant keys); and every key that is neither
`p` nor prefixed by `p + "/"` is unaffected (`get` returns the same value as
before the delete). -/
theorem localAdapter_delete_cascade (data : LocalStore) (p k : PathKey) :
    LocalAdapter.existsKey (LocalAdapter.delete data p) p = false ∧
    (underPath p k = true →
      LocalAdapter.existsKey (LocalAdapter.delete data p) k = false) ∧
    (k ≠ p → underPath p k = false →
      LocalAdapter.get (LocalAdapter.delete data p) k = LocalAdapter.get data k) := by
  refine ⟨?_, fun hunder => ?_, fun hne hout => ?_⟩
  · have houter := mapGet_filter_eq_of_true (fun kv => ! underPath p kv.1) p
      (fun _ => by simp [underPath_self_eq_false]) (mapEraseKey data p)
    have hinner := mapGet_filter_eq_none (fun kv => decide (kv.1 ≠ p)) p
      (fun _ => by simp) data
    simp only [LocalAdapter.existsKey, LocalAdapter.delete, deleteNestedValue,
      getNestedValue, mapEraseKey] at *
    rw [houter, hinner]
    rfl
  · have houter := mapGet_filter_eq_none (fun kv => ! underPath p kv.1) k
      (fun _ => by simp [hunder]) (mapEraseKey data p)
    simp only [LocalAdapter.existsKey, LocalAdapter.delete, deleteNestedValue,
      getNestedValue]
    rw [houter]
    rfl
  · have houter := mapGet_filter_eq_of_true (fun kv => ! underPath p kv.1) k
      (fun _ => by simp [hout]) (mapEraseKey data p)
    have hinner := mapGet_filter_eq_of_true (fun kv => decide (kv.1 ≠ p)) k
      (fun _ => by simp [hne]) data
    simp only [LocalAdapter.get, LocalAdapter.delete, deleteNestedValue,
      getNestedValue, mapEraseKey] at *
    rw [houter, hinner]

/-- C5 witness: deleting `"a"` from the concrete store
`{"a": 1, "a/b": 2, "ab": 3}` removes `"a"` and the descendant `"a/b"` and
leaves `"ab"` intact. -/
theorem localAdapter_delete_cascade_witness :
    LocalAdapter.existsKey
        (LocalAdapter.delete [(["a"], .num 1), (["a", "b"], .num 2), (["ab"], .num 3)] ["a"])
        ["a"] = false ∧
    LocalAdapter.existsKey
        (LocalAdapter.delete [(["a"], .num 1), (["a", "b"], .num 2), (["ab"], .num 3)] ["a"])
        ["a", "b"] = false ∧
    LocalAdapter.get
        (LocalAdapter.delete [(["a"], .num 1), (["a", "b"], .num 2), (["ab"], .num 3)] ["a"])
        ["ab"] =
      LocalAdapter.get [(["a"], .num 1), (["a", "b"], .num 2), (["ab"], .num 3)] ["ab"] := by
  have h := localAdapter_delete_cascade
    [(["a"], .num 1), (["a", "b"], .num 2), (["ab"], .num 3)] ["a"] ["a", "b"]
  have h₂ := localAdapter_delete_cascade
    [(["a"], .num 1), (["a", "b"], .num 2), (["ab"], .num 3)] ["a"] ["ab"]
  exact ⟨h.1, h.2.1 (by rfl), h₂.2.2 (by simp) (by rfl)⟩

/-! BaseMemoryAdapter subscriptions (src/src/adapters/MemoryAdapter.ts) with
the ComposerAdapter polling-resource overrides
(src/src/adapters/ComposerAdapter.ts). Subscription callbacks are opaque:
they are modelled by identifiers, and a `Set<callback>` by a duplicate-free
insertion-ordered list. The per-path polling interval object is modelled by
the presence of the path in the `pollingIntervals` key set. -/
abbrev Callback := Nat

/-- Adapter subscription bookkeeping: `this.subscribers` and the Composer
adapter's `this.pollingIntervals`. -/
structure SubscriptionState where
  subscribers : List (String × List Callback)
  polling : List String
deriving DecidableEq

/-- Lookup in the subscribers map (`Map.get`). -/
def subsGet : List (String × List Callback) → String → Option (List Callback)
  | [], _ => none
  | (k, v) :: rest, p => if k = p then some v else subsGet rest p

/-- Update in the subscribers map (`Map.set`). -/
def subsSet : List (String × List Callback) → String → List Callback →
    List (String × List Callback)
  | [], p, v => [(p, v)]
  | (k, w) :: rest, p, v =>
    if k = p then (k, v) :: rest else (k, w) :: subsSet rest p v

/-- Removal from the subscribers map (`Map.delete`). -/
def subsDelete (m : List (String × List Callback)) (p : String) :
    List (String × List Callback) :=
  m.filter (fun kv => decide (kv.1 ≠ p))

/-- `Set.add`: a no-op when the callback is already registered. -/
def setAdd (s : List Callback) (cb : Callback) : List Callback :=
  if cb ∈ s then s else s ++ [cb]

/-- `Set.delete`. -/
def setDelete (s : List Callback) (cb : Callback) : List Callback :=
  s.filter (fun c => decide (c ≠ cb))

/-- ComposerAdapter.startPolling: allocate an interval for the path unless
one is already registered. -/
def startPolling (st : SubscriptionState) (path : String) : SubscriptionState :=
  if path ∈ st.polling then st else { st with polling := st.polling ++ [path] }

/-- ComposerAdapter.stopPolling: clear and drop the interval if present. -/
def stopPolling (st : SubscriptionState) (path : String) : SubscriptionState :=
  if path ∈ st.polling then { st with polling := st.polling.filter (fun q => decide (q ≠ path)) }
  else st

/-- BaseMemoryAdapter.subscribe: ensure a subscriber set exists for the
path, add the callback to it, and start polling. -/
def subscribe (st : SubscriptionState) (path : String) (cb : Callback) : SubscriptionState :=
  let withEntry :=
    if (subsGet st.subscribers path).isSome then st.subscribers
    else subsSet st.subscribers path []
  let cur := (subsGet withEntry path).getD []
  startPolling { st with subscribers := subsSet withEntry path (setAdd cur cb) } path

/-- The unsubscribe closure returned by BaseMemoryAdapter.subscribe: remove
the callback from the path's set; when the set becomes empty, drop the set
and stop polling for the path. -/
def unsubscribe (st : SubscriptionState) (path : String) (cb : Callback) : SubscriptionState :=
  match subsGet st.subscribers path with
  | none => st
  | some subs =>
    let subs₁ := setDelete subs cb
    let m₁ := subsSet st.subscribers path subs₁
    if subs₁ = [] then
      stopPolling { st with subscribers := subsDelete m₁ path } path
    else { st with subscribers := m₁ }

/-- One subscribe-then-unsubscribe cycle on a fixed path and callback. -/
def subCycle (path : String) (cb : Callback) (st : SubscriptionState) : SubscriptionState :=
  unsubscribe (subscribe st path cb) path cb

theorem subsGet_subsSet_self (m : List (String × List Callback)) (p : String)
    (v : List Callback) : subsGet (subsSet m p v) p = some v := by
  induction m with
  | nil => simp [subsSet, subsGet]
  | cons kv rest ih =>
    by_cases h : kv.1 = p
    · simp [subsSet, subsGet, h]
    · simpa [subsSet, subsGet, h] using ih

theorem subsSet_subsSet_self (m : List (String × List Callback)) (p : String)
    (v w : List Callback) : subsSet (subsSet m p v) p w = subsSet m p w := by
  induction m with
  | nil => simp [subsSet]
  | cons kv rest ih =>
    by_cases h : kv.1 = p
    · simp [subsSet, h]
    · simp [subsSet, h, ih]

theorem subsDelete_subsSet_self (m : List (String × List Callback)) (p : String)
    (v : List Callback) (h : subsGet m p = none) : subsDelete (subsSet m p v) p = m := by
  induction m with
  | nil => simp [subsSet, subsDelete, List.filter]
  | cons kv rest ih =>
    obtain ⟨k, w⟩ := kv
    by_cases hk : k = p
    · simp [subsGet, hk] at h
    · have h' : subsGet rest p = none := by simpa [subsGet, hk] using h
      simp [subsSet, subsDelete, List.filter_cons, hk, ih h'] at *
      exact ih h'

theorem filter_ne_of_not_mem (l : List String) (p : String) (h : p ∉ l) :
    l.filter (fun q => decide (q ≠ p)) = l := by
  rw [List.filter_eq_self]
  intro a ha
  have hne : a ≠ p := fun e => h (e ▸ ha)
  simpa using hne

theorem subCycle_id (st : SubscriptionState) (path : String) (cb : Callback)
    (hsub : subsGet st.subscribers path = none) (hpoll : path ∉ st.polling) :
    subCycle path cb st = st := by
  obtain ⟨S, P⟩ := st
  simp only at hsub hpoll
  have hsubbed : subscribe ⟨S, P⟩ path cb = ⟨subsSet S path [cb], P ++ [path]⟩ := by
    simp [subscribe, hsub, subsGet_subsSet_self, subsSet_subsSet_self, setAdd,
      startPolling, hpoll]
  simp only [subCycle, hsubbed, unsubscribe, subsGet_subsSet_self, setDelete,
    List.filter, decide_not]
  simp [subsSet_subsSet_self, subsDelete_subsSet_self S path [] hsub, stopPolling,
    List.filter_append, filter_ne_of_not_mem P path hpoll, List.filter_cons]
  exact fun a ha e => hpoll (e ▸ ha)

/-- C7: for the adapter subscription machinery (base-class subscribe with the
Composer adapter's polling resources): starting from a state with no
subscriber set and no polling interval for path `p`, any number of repeated
subscribe-then-unsubscribe cycles on `p` returns the state unchanged — the
last unsubscribe removes the subscriber set and clears the polling interval,
so no polling/watch resource stays allocated. Moreover subscriptions are
independent: with two distinct callbacks subscribed on `p`, removing one
leaves the other registered and the polling interval alive. -/
theorem adapter_subscription_no_leak (st : SubscriptionState) (p : String)
    (cb₁ cb₂ : Callback) (hsub : subsGet st.subscribers p = none)
    (hpoll : p ∉ st.polling) :
    (∀ n : Nat, (subCycle p cb₁)^[n] st = st) ∧
    (cb₁ ≠ cb₂ →
      subsGet (unsubscribe (subscribe (subscribe st p cb₁) p cb₂) p cb₂).subscribers p =
        some [cb₁] ∧
      p ∈ (unsubscribe (subscribe (subscribe st p cb₁) p cb₂) p cb₂).polling) := by
  constructor
  · intro n
    induction n with
    | zero => rfl
    | succ n ih =>
      rw [Function.iterate_succ_apply, subCycle_id st p cb₁ hsub hpoll, ih]
  · intro hne
    obtain ⟨S, P⟩ := st
    simp only at hsub hpoll
    have h₁ : subscribe ⟨S, P⟩ p cb₁ = ⟨subsSet S p [cb₁], P ++ [p]⟩ := by
      simp [subscribe, hsub, subsGet_subsSet_self, subsSet_subsSet_self, setAdd,
        startPolling, hpoll]
    have h₂ : subscribe (⟨subsSet S p [cb₁], P ++ [p]⟩ : SubscriptionState) p cb₂ =
        ⟨subsSet S p [cb₁, cb₂], P ++ [p]⟩ := by
      simp [subscribe, subsGet_subsSet_self, subsSet_subsSet_self, setAdd,
        Ne.symm hne, startPolling]
    rw [h₁, h₂]
    have h₃ : setDelete [cb₁, cb₂] cb₂ = [cb₁] := by
      simp [setDelete, List.filter, hne]
    simp [unsubscribe, subsGet_subsSet_self, h₃, subsSet_subsSet_self]

/-- C7 witness: two cycles on path "agents" from the empty state return the
empty state, and with callbacks 0 and 1 both subscribed, unsubscribing 1
leaves 0 registered and the polling interval allocated. -/
theorem adapter_subscription_no_leak_witness :
    (subCycle "agents" 0)^[2] ⟨[], []⟩ = (⟨[], []⟩ : SubscriptionState) ∧
    subsGet (unsubscribe (subscribe (subscribe ⟨[], []⟩ "agents" 0) "agents" 1)
        "agents" 1).subscribers "agents" = some [0] ∧
    "agents" ∈ (unsubscribe (subscribe (subscribe ⟨[], []⟩ "agents" 0) "agents" 1)
        "agents" 1).polling := by
  have h := adapter_subscription_no_leak ⟨[], []⟩ "agents" 0 1 rfl (by simp)
  exact ⟨h.1 2, (h.2 (by decide)).1, (h.2 (by decide)).2⟩

/-! AdapterRegistry (src/src/adapters/MemoryAdapter.ts). The registry's
`Map<string, MemoryAdapter>` keys adapters by their unique `name`; an
adapter's asynchronous `health()` probe is modelled by its outcome — `ok h`
when the promise resolves with the health record `h`, `error msg` when it
throws or rejects with message `msg`. -/

/-- Health status values of the adapter contract. -/
inductive HealthStatus where
  | healthy : HealthStatus
  | degraded : HealthStatus
  | unhealthy : HealthStatus
deriving DecidableEq

/-- AdapterHealth result record (`storage` flattened into its two fields). -/
structure AdapterHealth where
  status : HealthStatus
  latency : Int
  storageUsed : Nat
  storageAvailable : Nat
  error : Option String
deriving DecidableEq

/-- The substitute entry `healthCheck` builds for an adapter whose probe
threw: status unhealthy, latency -1, empty storage, the error message. -/
def unhealthyEntry (msg : String) : AdapterHealth :=
  ⟨.unhealthy, -1, 0, 0, some msg⟩

/-- AdapterRegistry.healthCheck: probe every registered adapter in turn,
keeping its own result on success and substituting an `unhealthy` entry
carrying the error message when the probe throws; the try/catch guarantees
the loop itself never throws. -/
def AdapterRegistry.healthCheck (adapters : List (String × Except String AdapterHealth)) :
    List (String × AdapterHealth) :=
  adapters.map (fun a =>
    (a.1, match a.2 with
      | .ok h => h
      | .error msg => unhealthyEntry msg))

/-- C8: `healthCheck()` returns exactly one entry per registered adapter,
keyed by adapter name and in registry order, and never throws: an adapter
whose probe resolves has its own health result passed through unchanged,
and an adapter whose probe throws is reported as an `unhealthy` entry
carrying the error message. -/
theorem adapterRegistry_healthCheck_isolates_failures
    (adapters : List (String × Except String AdapterHealth)) :
    (AdapterRegistry.healthCheck adapters).map Prod.fst = adapters.map Prod.fst ∧
    (∀ name h, (name, Except.ok h) ∈ adapters →
      (name, h) ∈ AdapterRegistry.healthCheck adapters) ∧
    (∀ name msg, (name, Except.error msg) ∈ adapters →
      (name, unhealthyEntry msg) ∈ AdapterRegistry.healthCheck adapters) := by
  refine ⟨?_, fun name h hm => ?_, fun name msg hm => ?_⟩
  · simp [AdapterRegistry.healthCheck, List.map_map]
  · exact (List.mem_map).2 ⟨(name, Except.ok h), hm, rfl⟩
  · exact (List.mem_map).2 ⟨(name, Except.error msg), hm, rfl⟩

/-- C8 witness: a registry with a reachable "local" adapter and a failing
"air" adapter yields one healthy entry passed through and one unhealthy
entry carrying the error message. -/
theorem adapterRegistry_healthCheck_isolates_failures_witness :
    ("local", (⟨.healthy, 5, 10, 100, none⟩ : AdapterHealth)) ∈
      AdapterRegistry.healthCheck
        [("local", Except.ok ⟨.healthy, 5, 10, 100, none⟩),
         ("air", Except.error "Not connected to Air network")] ∧
    ("air", unhealthyEntry "Not connected to Air network") ∈
      AdapterRegistry.healthCheck
        [("local", Except.ok ⟨.healthy, 5, 10, 100, none⟩),
         ("air", Except.error "Not connected to Air network")] := by
  have h := adapterRegistry_healthCheck_isolates_failures
    [("local", Except.ok ⟨.healthy, 5, 10, 100, none⟩),
     ("air", Except.error "Not connected to Air network")]
  exact ⟨h.2.1 "local" ⟨.healthy, 5, 10, 100, none⟩ (by simp),
    h.2.2 "air" "Not connected to Air network" (by simp)⟩

/-! WorkroomsService (src/unnamed/part_007) with the command normalization of
the dashboard server (src/unnamed/part_006). GUN/Air writes (`gun.get(...)
.put(...)`) are modelled as updates to an explicit `AirStore`; the local
caches (`this.rooms`, `this.messages`) are modelled as association lists;
`uuid()` and `Date.now()` are explicit parameters. The engine's local
`presence`/`users` caches are fed only by Air subscription callbacks, which
none of the verified operations invoke, so the service state carries the
`users` cache and the persisted presence but no separate local presence
map. Event payloads (`data`) are opaque to every claim and are omitted from
the event record. -/

/-- Generic association-list lookup keyed by strings (`Map.get`). -/
def alistGet {β : Type} : List (String × β) → String → Option β
  | [], _ => none
  | (k, v) :: rest, p => if k = p then some v else alistGet rest p

/-- Generic association-list update keyed by strings (`Map.set`). -/
def alistSet {β : Type} : List (String × β) → String → β → List (String × β)
  | [], p, v => [(p, v)]
  | (k, w) :: rest, p, v =>
    if k = p then (k, v) :: rest else (k, w) :: alistSet rest p v

/-- Sender kinds (`'agent' | 'human'`). -/
inductive UserType where
  | agent : UserType
  | human : UserType
deriving DecidableEq

/-- Room kinds (`'project' | 'team' | 'task' | 'dm' | 'global'`). -/
inductive RoomType where
  | project : RoomType
  | team : RoomType
  | task : RoomType
  | dm : RoomType
  | global : RoomType
deriving DecidableEq

/-- Workroom settings block. -/
structure WorkroomSettings where
  allowAgents : Bool
  allowHumans : Bool
  autoArchive : Nat
  maxMessages : Nat
  notifications : Bool
deriving DecidableEq

/-- Workroom record (`rtype` models the source field `type`; `isPrivate`
models `private`). -/
structure Workroom where
  id : String
  name : String
  rtype : RoomType
  description : String
  created : Int
  creator : String
  isPrivate : Bool
  members : List String
  moderators : List String
  active : Bool
  archived : Bool
  lastActivity : Int
  messageCount : Nat
  projectId : Option String
  teamId : Option String
  taskId : Option String
  settings : WorkroomSettings
deriving DecidableEq

/-- WorkroomMessage record (`fromId`/`toId` model `from`/`to`; attachments
are opaque to every claim and are modelled by their names). -/
structure WorkroomMessage where
  id : String
  roomId : String
  fromId : String
  fromType : UserType
  toId : Option String
  message : String
  timestamp : Int
  thread : Option String
  attachments : Option (List String)
deriving DecidableEq

/-- WorkroomPresence record. -/
structure WorkroomPresence where
  roomId : String
  userId : String
  joined : Int
  lastActivity : Int
deriving DecidableEq

/-- WorkroomUser record (`utype` models `type`; only the fields read by the
verified operations are carried). -/
structure WorkroomUser where
  id : String
  name : String
  utype : UserType
  online : Bool
  lastSeen : Int
deriving DecidableEq

/-- Engine event as observed by registered listeners (`data` omitted,
see the section comment). -/
structure WorkroomEvent where
  etype : String
  roomId : String
  userId : String
  timestamp : Int
deriving DecidableEq

/-- Persisted Air/GUN state: the `workrooms`, `workroom-messages` and
`workroom-presence` trees written by the engine (a `put(null)` on a presence
node is recorded as `none`). -/
structure AirStore where
  workrooms : List (String × Workroom)
  messages : List (String × List (String × WorkroomMessage))
  presence : List (String × List (String × Option WorkroomPresence))
deriving DecidableEq

/-- Write `workrooms/<roomId>`. -/
def airPutRoom (air : AirStore) (roomId : String) (room : Workroom) : AirStore :=
  { air with workrooms := alistSet air.workrooms roomId room }

/-- Write `workroom-messages/<roomId>/<msgId>`. -/
def airPutMessage (air : AirStore) (roomId msgId : String) (m : WorkroomMessage) : AirStore :=
  let roomMsgs := (alistGet air.messages roomId).getD []
  { air with messages := alistSet air.messages roomId (alistSet roomMsgs msgId m) }

/-- Write `workroom-presence/<roomId>/<userId>` (with `none` for a
`put(null)`). -/
def airPutPresence (air : AirStore) (roomId userId : String)
    (p : Option WorkroomPresence) : AirStore :=
  let roomPres := (alistGet air.presence roomId).getD []
  { air with presence := alistSet air.presence roomId (alistSet roomPres userId p) }

/-- Read `workroom-presence/<roomId>/<userId>` back from the store. -/
def airGetPresence (air : AirStore) (roomId userId : String) :
    Option (Option WorkroomPresence) :=
  (alistGet air.presence roomId).bind (fun roomPres => alistGet roomPres userId)

/-- WorkroomsService state: the current user, the local `rooms`/`messages`/
`users` caches, the events delivered to listeners so far, and the persisted
Air store. -/
structure WorkroomsState where
  currentUser : WorkroomUser
  rooms : List (String × Workroom)
  messages : List (String × List WorkroomMessage)
  users : List (String × WorkroomUser)
  events : List WorkroomEvent
  air : AirStore
deriving DecidableEq

/-- Engine errors (`throw new Error(...)` sites of the service). -/
inductive WError where
  | roomNotFound : WError
  | notMember : WError
  | userNotFound : WError
  | unknownCommand : String → WError
deriving DecidableEq

/-- Source message text of each engine error. -/
def WError.message : WError → String
  | .roomNotFound => "Room not found"
  | .notMember => "Not a member of this room"
  | .userNotFound => "User not found"
  | .unknownCommand action => "Unknown command: " ++ action

/-- WorkroomsService.emit: deliver a typed event to every listener. -/
def emitEvent (s : WorkroomsState) (etype roomId : String) (now : Int) : WorkroomsState :=
  { s with events := s.events ++ [⟨etype, roomId, s.currentUser.id, now⟩] }

/-- WorkroomsService.joinRoom: throw `Room not found` for an unknown id;
add the caller to `members` (persisting the room) only when absent; write
the caller's presence record; emit a `join` event. -/
def joinRoom (s : WorkroomsState) (now : Int) (roomId : String) :
    Except WError Unit × WorkroomsState :=
  match alistGet s.rooms roomId with
  | none => (.error .roomNotFound, s)
  | some room =>
    let s₁ :=
      if s.currentUser.id ∈ room.members then s
      else
        let room₁ := { room with members := room.members ++ [s.currentUser.id] }
        { s with rooms := alistSet s.rooms roomId room₁,
                 air := airPutRoom s.air roomId room₁ }
    let pres : WorkroomPresence := ⟨roomId, s.currentUser.id, now, now⟩
    let s₂ := { s₁ with air := airPutPresence s₁.air roomId s.currentUser.id (some pres) }
    (.ok (), emitEvent s₂ "join" roomId now)

/-- WorkroomsService.leaveRoom: silently return for an unknown id; otherwise
remove the caller from `members` (persisting the room), clear the caller's
presence (`put(null)`), and emit a `leave` event. -/
def leaveRoom (s : WorkroomsState) (now : Int) (roomId : String) :
    Except WError Unit × WorkroomsState :=
  match alistGet s.rooms roomId with
  | none => (.ok (), s)
  | some room =>
    let room₁ :=
      { room with members := room.members.filter (fun m => decide (m ≠ s.currentUser.id)) }
    let s₁ := { s with rooms := alistSet s.rooms roomId room₁,
                       air := airPutRoom s.air roomId room₁ }
    let s₂ := { s₁ with air := airPutPresence s₁.air roomId s.currentUser.id none }
    (.ok (), emitEvent s₂ "leave" roomId now)

/-- Options bag of WorkroomsService.sendMessage (`toId` models `to`). -/
structure SendOptions where
  toId : Option String
  thread : Option String
  attachments : Option (List String)
deriving DecidableEq

/-- WorkroomsService.sendMessage: throw `Room not found` / `Not a member of
this room` before any mutation; otherwise persist the fresh message under
the room's message collection, bump the room's activity timestamp and
message counter (persisting the room), and refresh the sender's presence.
The source emits no event here. -/
def sendMessage (s : WorkroomsState) (now : Int) (freshId roomId content : String)
    (opts : SendOptions) : Except WError WorkroomMessage × WorkroomsState :=
  match alistGet s.rooms roomId with
  | none => (.error .roomNotFound, s)
  | some room =>
    if s.currentUser.id ∈ room.members then
      let msg : WorkroomMessage :=
        ⟨freshId, roomId, s.currentUser.id, s.currentUser.utype, opts.toId, content, now,
          opts.thread, opts.attachments⟩
      let s₁ := { s with air := airPutMessage s.air roomId freshId msg }
      let room₁ := { room with lastActivity := now, messageCount := room.messageCount + 1 }
      let s₂ := { s₁ with rooms := alistSet s₁.rooms roomId room₁,
                          air := airPutRoom s₁.air roomId room₁ }
      let pres : WorkroomPresence := ⟨roomId, s.currentUser.id, now, now⟩
      let s₃ := { s₂ with air := airPutPresence s₂.air roomId s.currentUser.id (some pres) }
      (.ok msg, s₃)
    else (.error .notMember, s)

/-- Partial settings override (`options.settings` is spread over the
defaults field by field). -/
structure PartialSettings where
  allowAgents : Option Bool
  allowHumans : Option Bool
  autoArchive : Option Nat
  maxMessages : Option Nat
  notifications : Option Bool
deriving DecidableEq

/-- Spread `{...defaults, ...override}` of the settings block. -/
def mergeSettings (defaults : WorkroomSettings) : Option PartialSettings → WorkroomSettings
  | none => defaults
  | some p =>
    ⟨p.allowAgents.getD defaults.allowAgents, p.allowHumans.getD defaults.allowHumans,
      p.autoArchive.getD defaults.autoArchive, p.maxMessages.getD defaults.maxMessages,
      p.notifications.getD defaults.notifications⟩

/-- Argument bag of WorkroomsService.createRoom
(`Partial<Workroom> & {name, type}`). The `members` field is accepted — 
`createDirectMessage` passes one — but `createRoom` never reads it. -/
structure CreateRoomOptions where
  name : String
  rtype : RoomType
  description : Option String
  isPrivate : Option Bool
  members : Option (List String)
  projectId : Option String
  teamId : Option String
  taskId : Option String
  settings : Option PartialSettings
deriving DecidableEq

/-- The room record the `createRoom` body builds: the supplied fresh
identity, the creator as sole initial member and moderator, and the merged
settings. The `members` field of the options — passed by
`createDirectMessage` — is never read. -/
def createRoomRecord (s : WorkroomsState) (now : Int) (freshId : String)
    (opts : CreateRoomOptions) : Workroom :=
  { id := freshId, name := opts.name, rtype := opts.rtype,
    description := opts.description.getD "",
    created := now, creator := s.currentUser.id,
    isPrivate := opts.isPrivate.getD false,
    members := [s.currentUser.id], moderators := [s.currentUser.id],
    active := true, archived := false, lastActivity := now, messageCount := 0,
    projectId := opts.projectId, teamId := opts.teamId, taskId := opts.taskId,
    settings := mergeSettings ⟨true, true, 30, 1000, true⟩ opts.settings }

/-- WorkroomsService.createRoom: build the room record; persist it; cache it
locally with an empty message list; join the creator immediately; emit
`room_created`; return the room. -/
def createRoom (s : WorkroomsState) (now : Int) (freshId : String)
    (opts : CreateRoomOptions) : Except WError Workroom × WorkroomsState :=
  let room : Workroom := createRoomRecord s now freshId opts
  let s₁ := { s with air := airPutRoom s.air room.id room,
                     rooms := alistSet s.rooms room.id room,
                     messages := alistSet s.messages room.id [] }
  match joinRoom s₁ now room.id with
  | (.error e, s₂) => (.error e, s₂)
  | (.ok _, s₂) => (.ok room, emitEvent s₂ "room_created" room.id now)

/-- WorkroomsService.getRoomMessages:
`limit ? messages.slice(-limit) : messages`. A positive limit keeps the last
`min(limit, length)` elements (`slice(-limit)` is `drop (length - limit)`);
`limit = 0` is falsy in JavaScript and returns the whole list, as does a
missing limit. -/
def getRoomMessages (s : WorkroomsState) (roomId : String) (limit : Option Nat) :
    List WorkroomMessage :=
  let messages := (alistGet s.messages roomId).getD []
  match limit with
  | some l => if l = 0 then messages else messages.drop (messages.length - l)
  | none => messages

/-- Descending insertion by `lastActivity` (one step of the stable
`sort((a, b) => b.lastActivity - a.lastActivity)` of `getUserRooms`). -/
def insertByActivityDesc (r : Workroom) : List Workroom → List Workroom
  | [] => [r]
  | x :: xs =>
    if x.lastActivity ≤ r.lastActivity then r :: x :: xs else x :: insertByActivityDesc r xs

/-- WorkroomsService.getUserRooms: the rooms containing the current user,
sorted by most recent activity first. -/
def getUserRooms (s : WorkroomsState) : List Workroom :=
  ((s.rooms.map Prod.snd).filter
    (fun r => decide (s.currentUser.id ∈ r.members))).foldr insertByActivityDesc []

/-- Ascending insertion by `timestamp` (one step of the stable
`sort((a, b) => a.timestamp - b.timestamp)` of the message subscription). -/
def insertByTs (m : WorkroomMessage) : List WorkroomMessage → List WorkroomMessage
  | [] => [m]
  | x :: xs => if m.timestamp ≤ x.timestamp then m :: x :: xs else x :: insertByTs m xs

/-- Sort a room's message list ascending by timestamp. -/
def sortMessages (l : List WorkroomMessage) : List WorkroomMessage :=
  l.foldr insertByTs []

/-- First-match in-place overwrite by message id
(`roomMessages[existingIndex] = message` after a successful `findIndex`);
`none` when no entry has the id. -/
def overwriteById (msgId : String) (m : WorkroomMessage) :
    List WorkroomMessage → Option (List WorkroomMessage)
  | [] => none
  | x :: xs =>
    if x.id = msgId then some (m :: xs)
    else (overwriteById msgId m xs).map (fun l => x :: l)

/-- Body of the per-room message subscription handler in `subscribeToAir`:
a delivery whose id is already present overwrites that entry in place
(without re-sorting); a delivery with a new id is pushed and the list
re-sorted ascending by timestamp. -/
def deliverMessage (msgs : List WorkroomMessage) (msgId : String) (m : WorkroomMessage) :
    List WorkroomMessage :=
  match overwriteById msgId m msgs with
  | some msgs₁ => msgs₁
  | none => sortMessages (msgs ++ [m])

/-- The full subscription callback: read (or create) the room's local
message list, apply the delivery, store it back, and emit a `message`
event. -/
def onAirMessage (s : WorkroomsState) (roomId msgId : String) (m : WorkroomMessage)
    (now : Int) : WorkroomsState :=
  let roomMessages := (alistGet s.messages roomId).getD []
  let s₁ := { s with messages := alistSet s.messages roomId (deliverMessage roomMessages msgId m) }
  emitEvent s₁ "message" roomId now

/-- Fold a sequence of store deliveries for one room through the
subscription handler (event timestamps are irrelevant to the message list
and fixed at 0). -/
def runDeliveries (s : WorkroomsState) (roomId : String)
    (ds : List (String × WorkroomMessage)) : WorkroomsState :=
  ds.foldl (fun st d => onAirMessage st roomId d.1 d.2 0) s

/-- Fold deliveries over a bare message list. -/
def deliverAll (ds : List (String × WorkroomMessage)) (init : List WorkroomMessage) :
    List WorkroomMessage :=
  ds.foldl (fun msgs d => deliverMessage msgs d.1 d.2) init

/-- Options bag of a CLI workroom command (`options?: Record<string, any>`):
the `limit` read by `history` plus the room fields the `create` branch
spreads into the creation options. -/
structure CommandOptions where
  limit : Option Nat
  description : Option String
  isPrivate : Option Bool
  members : Option (List String)
  projectId : Option String
  teamId : Option String
  taskId : Option String
  settings : Option PartialSettings
deriving DecidableEq

/-- WorkroomCommand (`toId` models `to`; the fields unused by
`handleCommand` are dropped). -/
structure WorkroomCommand where
  action : String
  roomId : Option String
  message : Option String
  toId : Option String
  options : Option CommandOptions
deriving DecidableEq

/-- The heterogeneous values `handleCommand` resolves with, by branch:
the created room, the `{success, message}` acknowledgements of join/leave,
the `{success, message}` wrapper around a sent message, the room list, and
the history list. -/
inductive CommandResult where
  | room : Workroom → CommandResult
  | ack : Bool → String → CommandResult
  | sent : Bool → WorkroomMessage → CommandResult
  | roomList : List Workroom → CommandResult
  | history : List WorkroomMessage → CommandResult
deriving DecidableEq

/-- WorkroomsService.handleCommand: dispatch on the action name. The source
has no try/catch, so a failure of the dispatched primitive propagates out as
a rejection — modelled by the `Except.error` flowing through each `match`.
The source's non-null assertions (`command.roomId!`, `command.message!`) are
modelled by defaulting to the empty string, and `options?.limit || 50`
replaces a missing or zero (falsy) limit by 50. -/
def handleCommand (s : WorkroomsState) (now : Int) (freshId : String)
    (cmd : WorkroomCommand) : Except WError CommandResult × WorkroomsState :=
  match cmd.action with
  | "create" =>
    let o := cmd.options
    let copts : CreateRoomOptions :=
      { name := cmd.roomId.getD "", rtype := .task,
        description := o.bind (fun c => c.description),
        isPrivate := o.bind (fun c => c.isPrivate),
        members := o.bind (fun c => c.members),
        projectId := o.bind (fun c => c.projectId),
        teamId := o.bind (fun c => c.teamId),
        taskId := o.bind (fun c => c.taskId),
        settings := o.bind (fun c => c.settings) }
    match createRoom s now freshId copts with
    | (.error e, s₁) => (.error e, s₁)
    | (.ok room, s₁) => (.ok (.room room), s₁)
  | "join" =>
    match joinRoom s now (cmd.roomId.getD "") with
    | (.error e, s₁) => (.error e, s₁)
    | (.ok _, s₁) => (.ok (.ack true ("Joined room " ++ cmd.roomId.getD "")), s₁)
  | "leave" =>
    match leaveRoom s now (cmd.roomId.getD "") with
    | (.error e, s₁) => (.error e, s₁)
    | (.ok _, s₁) => (.ok (.ack true ("Left room " ++ cmd.roomId.getD "")), s₁)
  | "message" =>
    match sendMessage s now freshId (cmd.roomId.getD "") (cmd.message.getD "")
        ⟨cmd.toId, none, none⟩ with
    | (.error e, s₁) => (.error e, s₁)
    | (.ok m, s₁) => (.ok (.sent true m), s₁)
  | "list" => (.ok (.roomList (getUserRooms s)), s)
  | "history" =>
    let limit :=
      match cmd.options.bind (fun c => c.limit) with
      | some l => if l = 0 then 50 else l
      | none => 50
    (.ok (.history (getRoomMessages s (cmd.roomId.getD "") (some limit))), s)
  | other => (.error (.unknownCommand other), s)

/-- Response frame the dashboard server sends back over the websocket for a
workroom command (src/unnamed/part_006, `handleWorkroomCommand`). -/
structure ServerResponse where
  rtype : String
  command : String
  result : Option CommandResult
  error : Option String
deriving DecidableEq

/-- DashboardServer.handleWorkroomCommand: await the engine's
`handleCommand` inside a try/catch and normalize either outcome into one
response shape — `workroom-result` carrying the result, or `workroom-error`
carrying the action name and the error message. -/
def handleWorkroomCommand (s : WorkroomsState) (now : Int) (freshId : String)
    (cmd : WorkroomCommand) : ServerResponse × WorkroomsState :=
  match handleCommand s now freshId cmd with
  | (.ok r, s₁) => (⟨"workroom-result", cmd.action, some r, none⟩, s₁)
  | (.error e, s₁) => (⟨"workroom-error", cmd.action, none, some e.message⟩, s₁)

/-- Concrete fixtures used by witnesses and counterexamples. -/
def demoUser : WorkroomUser := ⟨"u1", "User One", .agent, true, 0⟩

/-- Demo room created by another user `u2`; `u1` is not a member. -/
def demoRoom : Workroom :=
  ⟨"r1", "demo", .task, "", 0, "u2", false, ["u2"], ["u2"], true, false, 0, 0,
    none, none, none, ⟨true, true, 30, 1000, true⟩⟩

/-- Demo engine state: `u1` observing a store with the single room `r1`. -/
def demoState : WorkroomsState :=
  ⟨demoUser, [("r1", demoRoom)], [], [], [], ⟨[], [], []⟩⟩

/-- Demo engine state with no rooms and no messages. -/
def demoListenerState : WorkroomsState := ⟨demoUser, [], [], [], [], ⟨[], [], []⟩⟩

/-- Store delivery: message id "a" at timestamp 1. -/
def demoMsgA1 : WorkroomMessage := ⟨"a", "room", "u2", .agent, none, "first", 1, none, none⟩

/-- Store delivery: message id "b" at timestamp 2. -/
def demoMsgB2 : WorkroomMessage := ⟨"b", "room", "u2", .agent, none, "second", 2, none, none⟩

/-- Store re-delivery of id "a" with an updated timestamp 5. -/
def demoMsgA5 : WorkroomMessage := ⟨"a", "room", "u2", .agent, none, "edited", 5, none, none⟩

theorem alistGet_alistSet_self {β : Type} (m : List (String × β)) (k : String) (v : β) :
    alistGet (alistSet m k v) k = some v := by
  induction m with
  | nil => simp [alistSet, alistGet]
  | cons kv rest ih =>
    by_cases h : kv.1 = k
    · simp [alistSet, alistGet, h]
    · simpa [alistSet, alistGet, h] using ih

theorem airGetPresence_airPutPresence_self (air : AirStore) (roomId userId : String)
    (p : Option WorkroomPresence) :
    airGetPresence (airPutPresence air roomId userId p) roomId userId = some p := by
  simp [airGetPresence, airPutPresence, alistGet_alistSet_self]

/-- C3: for every existing room whose members list does not contain the
caller, `sendMessage` fails with the not-a-member error and returns the
state unchanged — the membership check precedes every mutation, so the
room's `messageCount` and `lastActivity` are untouched and nothing is
persisted. -/
theorem workrooms_sendMessage_notMember (s : WorkroomsState) (now : Int)
    (freshId roomId content : String) (opts : SendOptions) (room : Workroom)
    (hroom : alistGet s.rooms roomId = some room)
    (hmem : s.currentUser.id ∉ room.members) :
    sendMessage s now freshId roomId content opts = (.error .notMember, s) := by
  simp [sendMessage, hroom, hmem]

/-- C3 witness: `u1` sending into room `r1` (members `["u2"]`) fails with
the not-a-member error and leaves the state untouched. -/
theorem workrooms_sendMessage_notMember_witness :
    sendMessage demoState 5 "m1" "r1" "hi" ⟨none, none, none⟩ =
      (.error .notMember, demoState) :=
  workrooms_sendMessage_notMember demoState 5 "m1" "r1" "hi" ⟨none, none, none⟩
    demoRoom rfl (by decide)

/-- C9: for a room id absent from the engine's room map, `joinRoom` throws
the room-not-found error, while `leaveRoom` on the same unknown id returns
normally as a silent no-op — identical state, so nothing is persisted, no
presence record is removed, and no event is emitted. -/
theorem workrooms_join_throws_leave_silent (s : WorkroomsState) (now : Int)
    (roomId : String) (h : alistGet s.rooms roomId = none) :
    joinRoom s now roomId = (.error .roomNotFound, s) ∧
    leaveRoom s now roomId = (.ok (), s) := by
  constructor <;> simp [joinRoom, leaveRoom, h]

/-- C9 witness: joining the unknown room "nope" throws while leaving it is
a silent no-op, on the demo state. -/
theorem workrooms_join_throws_leave_silent_witness :
    joinRoom demoState 7 "nope" = (.error .roomNotFound, demoState) ∧
    leaveRoom demoState 7 "nope" = (.ok (), demoState) :=
  workrooms_join_throws_leave_silent demoState 7 "nope" (by decide)

/-- C10: for every positive limit `l`, `getRoomMessages(roomId, l)` returns
exactly the length-`min l len` suffix of the room's ordered message
sequence (the most recent messages, order preserved); with no limit it
returns the whole sequence; and for a room with no recorded messages it
returns the empty list. -/
theorem workrooms_getRoomMessages_suffix (s : WorkroomsState) (roomId : String)
    (l : Nat) (hl : 0 < l) :
    getRoomMessages s roomId none = (alistGet s.messages roomId).getD [] ∧
    getRoomMessages s roomId (some l) =
      (getRoomMessages s roomId none).drop ((getRoomMessages s roomId none).length - l) ∧
    (getRoomMessages s roomId (some l)).length =
      min l (getRoomMessages s roomId none).length ∧
    (getRoomMessages s roomId (some l)) <:+ getRoomMessages s roomId none ∧
    (alistGet s.messages roomId = none → getRoomMessages s roomId (some l) = []) := by
  have hne : ¬ l = 0 := Nat.pos_iff_ne_zero.mp hl
  refine ⟨rfl, by simp [getRoomMessages, hne], ?_, ?_, ?_⟩
  · simp only [getRoomMessages, hne, if_false, List.length_drop]
    omega
  · simp only [getRoomMessages, hne, if_false]
    exact List.drop_suffix _ _
  · intro h
    simp [getRoomMessages, hne, h]

/-- C10 witness: with the sequence `[demoMsgA1, demoMsgB2, demoMsgA5]`
recorded for "room", limit 2 returns the last two messages in order, and an
unknown room returns the empty list. -/
theorem workrooms_getRoomMessages_suffix_witness :
    getRoomMessages
        { demoListenerState with messages := [("room", [demoMsgA1, demoMsgB2, demoMsgA5])] }
        "room" (some 2) = [demoMsgB2, demoMsgA5] ∧
    getRoomMessages
        { demoListenerState with messages := [("room", [demoMsgA1, demoMsgB2, demoMsgA5])] }
        "nope" (some 2) = [] := by
  have h := workrooms_getRoomMessages_suffix
    { demoListenerState with messages := [("room", [demoMsgA1, demoMsgB2, demoMsgA5])] }
    "room" 2 (by decide)
  have h₂ := workrooms_getRoomMessages_suffix
    { demoListenerState with messages := [("room", [demoMsgA1, demoMsgB2, demoMsgA5])] }
    "nope" 2 (by decide)
  exact ⟨h.2.1.trans (by rfl), h₂.2.2.2.2 (by rfl)⟩

theorem joinRoom_already_member (s : WorkroomsState) (now : Int) (roomId : String)
    (room : Workroom) (hget : alistGet s.rooms roomId = some room)
    (hmem : s.currentUser.id ∈ room.members) :
    joinRoom s now roomId =
      (.ok (), emitEvent
        { s with air := (airPutPresence s.air roomId s.currentUser.id
            (some ⟨roomId, s.currentUser.id, now, now⟩)) } "join" roomId now) := by
  simp [joinRoom, hget, hmem]

/-- C6: for every room-creation spec — including specs that carry their own
members list, as `createDirectMessage` passes — `createRoom` builds the room
with the supplied fresh identity, the creator as sole initial member and
sole initial moderator, persists it to the store, immediately joins the
creator (emitting the `join` event and writing the creator's presence
record) before emitting `room_created` and returning the created room. -/
theorem workrooms_createRoom_creator_sole_member (s : WorkroomsState) (now : Int)
    (freshId : String) (opts : CreateRoomOptions) :
    ∃ r : Workroom,
      (createRoom s now freshId opts).1 = .ok r ∧
      r.id = freshId ∧
      r.creator = s.currentUser.id ∧
      r.members = [s.currentUser.id] ∧
      r.moderators = [s.currentUser.id] ∧
      alistGet (createRoom s now freshId opts).2.rooms freshId = some r ∧
      alistGet (createRoom s now freshId opts).2.air.workrooms freshId = some r ∧
      airGetPresence (createRoom s now freshId opts).2.air freshId s.currentUser.id =
        some (some ⟨freshId, s.currentUser.id, now, now⟩) ∧
      (createRoom s now freshId opts).2.events =
        s.events ++ [⟨"join", freshId, s.currentUser.id, now⟩,
          ⟨"room_created", freshId, s.currentUser.id, now⟩] := by
  refine ⟨createRoomRecord s now freshId opts, ?_⟩
  have hjoin := joinRoom_already_member
    { s with air := (airPutRoom s.air freshId (createRoomRecord s now freshId opts)),
             rooms := (alistSet s.rooms freshId (createRoomRecord s now freshId opts)),
             messages := (alistSet s.messages freshId []) }
    now freshId (createRoomRecord s now freshId opts)
    (alistGet_alistSet_self _ _ _) (List.mem_singleton.mpr rfl)
  have hidf : (createRoomRecord s now freshId opts).id = freshId := rfl
  simp only [createRoom, hidf, hjoin]
  simp [emitEvent, airPutPresence, airPutRoom, airGetPresence, alistGet_alistSet_self]
  simp [createRoomRecord]

/-- Ascending-by-timestamp order on a room's message list. -/
def TsSorted (l : List WorkroomMessage) : Prop :=
  List.Pairwise (fun a b => a.timestamp ≤ b.timestamp) l

/-- At-most-one-entry-per-message-identity on a room's message list. -/
def UniqueIds (l : List WorkroomMessage) : Prop :=
  List.Pairwise (fun a b => a.id ≠ b.id) l

theorem mem_insertByTs {m x : WorkroomMessage} :
    ∀ {l : List WorkroomMessage}, x ∈ insertByTs m l ↔ x = m ∨ x ∈ l := by
  intro l
  induction l with
  | nil => simp [insertByTs]
  | cons y ys ih =>
    by_cases h : m.timestamp ≤ y.timestamp
    · simp [insertByTs, h]
    · simp [insertByTs, h, ih]
      tauto

theorem sorted_insertByTs (m : WorkroomMessage) {l : List WorkroomMessage}
    (h : TsSorted l) : TsSorted (insertByTs m l) := by
  induction l with
  | nil => simp [insertByTs, TsSorted]
  | cons y ys ih =>
    obtain ⟨hy, hys⟩ := List.pairwise_cons.mp h
    by_cases hle : m.timestamp ≤ y.timestamp
    · simp only [insertByTs, hle, if_true]
      refine List.Pairwise.cons ?_ h
      intro z hz
      rcases List.mem_cons.mp hz with rfl | hz'
      · exact hle
      · exact le_trans hle (hy z hz')
    · simp only [insertByTs, hle, if_false]
      refine List.Pairwise.cons ?_ (ih hys)
      intro z hz
      rcases mem_insertByTs.mp hz with rfl | hz'
      · exact le_of_lt (lt_of_not_le hle)
      · exact hy z hz'

theorem sorted_sortMessages (l : List WorkroomMessage) : TsSorted (sortMessages l) := by
  induction l with
  | nil => simp [sortMessages, TsSorted]
  | cons x xs ih => exact sorted_insertByTs x ih

theorem mem_sortMessages {x : WorkroomMessage} :
    ∀ {l : List WorkroomMessage}, x ∈ sortMessages l ↔ x ∈ l := by
  intro l
  induction l with
  | nil => simp [sortMessages]
  | cons y ys ih =>
    show x ∈ insertByTs y (sortMessages ys) ↔ _
    rw [mem_insertByTs]
    simp [ih]

theorem perm_insertByTs (m : WorkroomMessage) :
    ∀ (l : List WorkroomMessage), List.Perm (insertByTs m l) (m :: l) := by
  intro l
  induction l with
  | nil => simp [insertByTs]
  | cons y ys ih =>
    by_cases h : m.timestamp ≤ y.timestamp
    · simp [insertByTs, h]
    · simp only [insertByTs, h, if_false]
      exact (List.Perm.cons y ih).trans (List.Perm.swap m y ys)

theorem perm_sortMessages (l : List WorkroomMessage) : List.Perm (sortMessages l) l := by
  induction l with
  | nil => rfl
  | cons x xs ih => exact (perm_insertByTs x (sortMessages xs)).trans (List.Perm.cons x ih)

theorem overwriteById_eq_none {i : String} {m : WorkroomMessage} :
    ∀ {l : List WorkroomMessage}, overwriteById i m l = none ↔ ∀ x ∈ l, x.id ≠ i := by
  intro l
  induction l with
  | nil => simp [overwriteById]
  | cons y ys ih =>
    by_cases h : y.id = i
    · simp [overwriteById, h]
    · simp [overwriteById, h, Option.map_eq_none', ih]

theorem overwriteById_some_mem {i : String} {m : WorkroomMessage} :
    ∀ {l l' : List WorkroomMessage}, overwriteById i m l = some l' →
      ∀ y ∈ l', y ∈ l ∨ y = m := by
  intro l
  induction l with
  | nil => intro l' h; simp [overwriteById] at h
  | cons x xs ih =>
    intro l' h y hy
    by_cases hx : x.id = i
    · simp only [overwriteById, hx, if_true, Option.some_inj] at h
      subst h
      rcases List.mem_cons.mp hy with rfl | hy'
      · exact Or.inr rfl
      · exact Or.inl (List.mem_cons_of_mem x hy')
    · simp only [overwriteById, hx, if_false] at h
      cases hov : overwriteById i m xs with
      | none => rw [hov] at h; simp at h
      | some l₂ =>
        rw [hov] at h
        simp at h
        subst h
        rcases List.mem_cons.mp hy with h₀ | hy'
        · rw [h₀]
          exact Or.inl (List.mem_cons_self x xs)
        · rcases ih hov y hy' with h₁ | h₂
          · exact Or.inl (List.mem_cons_of_mem x h₁)
          · exact Or.inr h₂

theorem overwriteById_some_exists {i : String} {m : WorkroomMessage} :
    ∀ {l l' : List WorkroomMessage}, overwriteById i m l = some l' →
      ∃ z ∈ l, z.id = i := by
  intro l
  induction l with
  | nil => intro l' h; simp [overwriteById] at h
  | cons x xs ih =>
    intro l' h
    by_cases hx : x.id = i
    · exact ⟨x, List.mem_cons_self x xs, hx⟩
    · simp only [overwriteById, hx, if_false] at h
      cases hov : overwriteById i m xs with
      | none => rw [hov] at h; simp at h
      | some l₂ =>
        obtain ⟨z, hz, hzid⟩ := ih hov
        exact ⟨z, List.mem_cons_of_mem x hz, hzid⟩

theorem overwriteById_sorted (tsOf : String → Int) {i : String} {m : WorkroomMessage}
    (hm : m.timestamp = tsOf i) :
    ∀ {l l' : List WorkroomMessage}, TsSorted l → (∀ x ∈ l, x.timestamp = tsOf x.id) →
      overwriteById i m l = some l' → TsSorted l' := by
  intro l
  induction l with
  | nil => intro l' _ _ h; simp [overwriteById] at h
  | cons x xs ih =>
    intro l' hs hel h
    obtain ⟨hx₁, hxs⟩ := List.pairwise_cons.mp hs
    by_cases hx : x.id = i
    · simp only [overwriteById, hx, if_true, Option.some_inj] at h
      subst h
      have hxts : x.timestamp = tsOf i := by
        rw [hel x (List.mem_cons_self x xs), hx]
      refine List.Pairwise.cons ?_ hxs
      intro z hz
      rw [hm, ← hxts]
      exact hx₁ z hz
    · simp only [overwriteById, hx, if_false] at h
      cases hov : overwriteById i m xs with
      | none => rw [hov] at h; simp at h
      | some l₂ =>
        rw [hov] at h
        simp at h
        subst h
        refine List.Pairwise.cons ?_
          (ih hxs (fun z hz => hel z (List.mem_cons_of_mem x hz)) hov)
        intro z hz
        rcases overwriteById_some_mem hov z hz with hz₁ | rfl
        · exact hx₁ z hz₁
        · obtain ⟨w, hw, hwid⟩ := overwriteById_some_exists hov
          have hwts : w.timestamp = tsOf i := by
            rw [hel w (List.mem_cons_of_mem x hw), hwid]
          rw [hm, ← hwts]
          exact hx₁ w hw

theorem overwriteById_unique {i : String} {m : WorkroomMessage} (hmid : m.id = i) :
    ∀ {l l' : List WorkroomMessage}, UniqueIds l → overwriteById i m l = some l' →
      UniqueIds l' := by
  intro l
  induction l with
  | nil => intro l' _ h; simp [overwriteById] at h
  | cons x xs ih =>
    intro l' hu h
    obtain ⟨hx₁, hxs⟩ := List.pairwise_cons.mp hu
    by_cases hx : x.id = i
    · simp only [overwriteById, hx, if_true, Option.some_inj] at h
      subst h
      refine List.Pairwise.cons ?_ hxs
      intro z hz
      rw [hmid, ← hx]
      exact hx₁ z hz
    · simp only [overwriteById, hx, if_false] at h
      cases hov : overwriteById i m xs with
      | none => rw [hov] at h; simp at h
      | some l₂ =>
        rw [hov] at h
        simp at h
        subst h
        refine List.Pairwise.cons ?_ (ih hxs hov)
        intro z hz
        rcases overwriteById_some_mem hov z hz with hz₁ | rfl
        · exact hx₁ z hz₁
        · rw [hmid]
          exact hx

/-- Invariant of a room's cached message list relative to an assignment
`tsOf` of one creation timestamp per message identity. -/
def MsgInv (tsOf : String → Int) (l : List WorkroomMessage) : Prop :=
  TsSorted l ∧ UniqueIds l ∧ ∀ x ∈ l, x.timestamp = tsOf x.id

theorem deliverMessage_unique {i : String} {m : WorkroomMessage}
    (hwf : m.id = i) {l : List WorkroomMessage} (hu : UniqueIds l) :
    UniqueIds (deliverMessage l i m) := by
  unfold deliverMessage
  cases hov : overwriteById i m l with
  | some l₁ => exact overwriteById_unique hwf hu hov
  | none =>
    have hnone := overwriteById_eq_none.mp hov
    have hu' : UniqueIds (l ++ [m]) := by
      rw [UniqueIds, List.pairwise_append]
      refine ⟨hu, by simp, ?_⟩
      intro a ha b hb
      rw [List.mem_singleton.mp hb, hwf]
      exact hnone a ha
    exact ((perm_sortMessages (l ++ [m])).pairwise_iff
      (fun h e => h e.symm)).mpr hu'

theorem deliverMessage_inv (tsOf : String → Int) {i : String} {m : WorkroomMessage}
    (hwf : m.id = i) (hts : m.timestamp = tsOf m.id) {l : List WorkroomMessage}
    (h : MsgInv tsOf l) : MsgInv tsOf (deliverMessage l i m) := by
  obtain ⟨hs, hu, hel⟩ := h
  refine ⟨?_, deliverMessage_unique hwf hu, ?_⟩
  · unfold deliverMessage
    cases hov : overwriteById i m l with
    | some l₁ => exact overwriteById_sorted tsOf (by rw [hts, hwf]) hs hel hov
    | none => exact sorted_sortMessages _
  · intro x hx
    unfold deliverMessage at hx
    cases hov : overwriteById i m l with
    | some l₁ =>
      rw [hov] at hx
      rcases overwriteById_some_mem hov x hx with hxl | h₀
      · exact hel x hxl
      · rw [h₀]
        exact hts
    | none =>
      rw [hov] at hx
      rcases List.mem_append.mp (mem_sortMessages.mp hx) with h₁ | h₂
      · exact hel x h₁
      · rw [List.mem_singleton.mp h₂]
        exact hts

theorem deliverAll_inv (tsOf : String → Int) :
    ∀ (ds : List (String × WorkroomMessage)) (init : List WorkroomMessage),
      (∀ d ∈ ds, (d.2 : WorkroomMessage).id = d.1) →
      (∀ d ∈ ds, (d.2 : WorkroomMessage).timestamp = tsOf (d.2 : WorkroomMessage).id) →
      MsgInv tsOf init → MsgInv tsOf (deliverAll ds init)
  | [], _, _, _, h => h
  | d :: ds, init, hwf, hts, h => by
    have hstep := deliverMessage_inv tsOf (hwf d (List.mem_cons_self d ds))
      (hts d (List.mem_cons_self d ds)) h
    have ih := deliverAll_inv tsOf ds (deliverMessage init d.1 d.2)
      (fun e he => hwf e (List.mem_cons_of_mem d he))
      (fun e he => hts e (List.mem_cons_of_mem d he)) hstep
    simpa [deliverAll] using ih

theorem deliverAll_unique :
    ∀ (ds : List (String × WorkroomMessage)) (init : List WorkroomMessage),
      (∀ d ∈ ds, (d.2 : WorkroomMessage).id = d.1) →
      UniqueIds init → UniqueIds (deliverAll ds init)
  | [], _, _, h => h
  | d :: ds, init, hwf, h => by
    have hstep := deliverMessage_unique (hwf d (List.mem_cons_self d ds)) h
    have ih := deliverAll_unique ds (deliverMessage init d.1 d.2)
      (fun e he => hwf e (List.mem_cons_of_mem d he)) hstep
    simpa [deliverAll] using ih

theorem runDeliveries_getRoomMessages (roomId : String) :
    ∀ (ds : List (String × WorkroomMessage)) (s : WorkroomsState),
      getRoomMessages (runDeliveries s roomId ds) roomId none =
        deliverAll ds ((alistGet s.messages roomId).getD [])
  | [], s => rfl
  | d :: ds, s => by
    have ih := runDeliveries_getRoomMessages roomId ds (onAirMessage s roomId d.1 d.2 0)
    have hmsg : (alistGet (onAirMessage s roomId d.1 d.2 0).messages roomId).getD [] =
        deliverMessage ((alistGet s.messages roomId).getD []) d.1 d.2 := by
      simp [onAirMessage, emitEvent, alistGet_alistSet_self]
    rw [hmsg] at ih
    simpa [runDeliveries, deliverAll] using ih

/-- C2 counterexample: the claim asserts the exposed message sequence is
sorted ascending by timestamp after any delivery sequence, including
re-deliveries of an existing identity. Delivering id "a" at timestamp 1,
id "b" at timestamp 2, then re-delivering id "a" with updated timestamp 5
overwrites in place without re-sorting, and `getRoomMessages` exposes the
sequence `[a@5, b@2]`, which is not sorted ascending. -/
theorem workrooms_message_invariant_counterexample :
    getRoomMessages
        (runDeliveries demoListenerState "room"
          [("a", demoMsgA1), ("b", demoMsgB2), ("a", demoMsgA5)]) "room" none =
      [demoMsgA5, demoMsgB2] ∧
    ¬ TsSorted
      (getRoomMessages
        (runDeliveries demoListenerState "room"
          [("a", demoMsgA1), ("b", demoMsgB2), ("a", demoMsgA5)]) "room" none) := by
  constructor
  · rfl
  · rw [show getRoomMessages
        (runDeliveries demoListenerState "room"
          [("a", demoMsgA1), ("b", demoMsgB2), ("a", demoMsgA5)]) "room" none =
      [demoMsgA5, demoMsgB2] from rfl]
    intro h
    have := (List.pairwise_cons.mp h).1 demoMsgB2 (List.mem_singleton.mpr rfl)
    simp [demoMsgA5, demoMsgB2] at this

/-- C2 (amended): after any sequence of store deliveries into a room whose
cache starts empty, the sequence exposed by `getRoomMessages` contains at
most one entry per message identity (a delivery whose id already exists
overwrites that entry in place, a new id is inserted and the list
re-sorted), provided each delivered message object carries its delivery key
as its `id`. The ascending-by-timestamp order additionally holds provided
deliveries are timestamp-consistent — every delivery of a given identity
carries that identity's one creation timestamp (`tsOf`); an overwrite in
place does not re-sort, so a re-delivery that changes the timestamp can
break the order (see the counterexample). -/
theorem workrooms_message_invariant_amended (s : WorkroomsState) (roomId : String)
    (ds : List (String × WorkroomMessage)) (tsOf : String → Int)
    (hwf : ∀ d ∈ ds, (d.2 : WorkroomMessage).id = d.1)
    (hstart : alistGet s.messages roomId = none) :
    UniqueIds (getRoomMessages (runDeliveries s roomId ds) roomId none) ∧
    ((∀ d ∈ ds, (d.2 : WorkroomMessage).timestamp = tsOf (d.2 : WorkroomMessage).id) →
      TsSorted (getRoomMessages (runDeliveries s roomId ds) roomId none)) := by
  have hbridge := runDeliveries_getRoomMessages roomId ds s
  rw [hstart] at hbridge
  simp only [Option.getD_none] at hbridge
  rw [hbridge]
  constructor
  · exact deliverAll_unique ds [] hwf (by simp [UniqueIds])
  · intro hts
    exact (deliverAll_inv tsOf ds [] hwf hts
      ⟨by simp [TsSorted], by simp [UniqueIds], by simp⟩).1

/-- C2 witness: delivering id "b" at its timestamp 2, then id "a" at its
timestamp 1, then re-delivering id "a" unchanged, yields a sequence with
unique identities that is sorted ascending. -/
theorem workrooms_message_invariant_amended_witness :
    UniqueIds (getRoomMessages
      (runDeliveries demoListenerState "room"
        [("b", demoMsgB2), ("a", demoMsgA1), ("a", demoMsgA1)]) "room" none) ∧
    TsSorted (getRoomMessages
      (runDeliveries demoListenerState "room"
        [("b", demoMsgB2), ("a", demoMsgA1), ("a", demoMsgA1)]) "room" none) := by
  have h := workrooms_message_invariant_amended demoListenerState "room"
    [("b", demoMsgB2), ("a", demoMsgA1), ("a", demoMsgA1)]
    (fun i => if i = "a" then 1 else 2) (by decide) rfl
  exact ⟨h.1, h.2 (by decide)⟩

/-- C4 counterexample: the claim asserts that when a dispatched operation
fails, `handleCommand` itself returns a structured failure result (action
name + error message) instead of letting the error escape. The source
`handleCommand` has no try/catch: dispatching `message` on room `r1` for
the non-member `u1` makes the `sendMessage` rejection escape `handleCommand`
unchanged — the outcome is the raised `Not a member of this room` error
(`Except.error`), not a returned structured failure value (`Except.ok`). -/
theorem workrooms_handleCommand_counterexample :
    handleCommand demoState 5 "m1" ⟨"message", some "r1", some "hi", none, none⟩ =
      (Except.error WError.notMember, demoState) := by
  rfl

/-- C4 (amended): `handleCommand` dispatches each of the six action names
onto the corresponding engine primitive and lets a failure of the dispatched
primitive escape as a rejection; it is the dashboard server's wrapper
(`handleWorkroomCommand`), whose try/catch surrounds the await, that
normalizes either outcome into one response shape carrying the action name
— `workroom-result` with the result, or `workroom-error` with the error
message — so the dispatch loop never crashes. -/
theorem workrooms_handleCommand_amended (s : WorkroomsState) (now : Int)
    (freshId : String) (cmd : WorkroomCommand) (roomId : Option String)
    (text toId : Option String) (o : Option CommandOptions) :
    ((handleWorkroomCommand s now freshId cmd).1.command = cmd.action ∧
      ((handleWorkroomCommand s now freshId cmd).1.rtype = "workroom-result" ∧
          (handleWorkroomCommand s now freshId cmd).1.error = none ∨
        (handleWorkroomCommand s now freshId cmd).1.rtype = "workroom-error" ∧
          ∃ e : WError,
            (handleWorkroomCommand s now freshId cmd).1.error = some e.message)) ∧
    handleCommand s now freshId ⟨"join", roomId, text, toId, o⟩ =
      (match joinRoom s now (roomId.getD "") with
        | (.error e, s₁) => (.error e, s₁)
        | (.ok _, s₁) => (.ok (.ack true ("Joined room " ++ roomId.getD "")), s₁)) ∧
    handleCommand s now freshId ⟨"leave", roomId, text, toId, o⟩ =
      (match leaveRoom s now (roomId.getD "") with
        | (.error e, s₁) => (.error e, s₁)
        | (.ok _, s₁) => (.ok (.ack true ("Left room " ++ roomId.getD "")), s₁)) ∧
    handleCommand s now freshId ⟨"message", roomId, text, toId, o⟩ =
      (match sendMessage s now freshId (roomId.getD "") (text.getD "")
          ⟨toId, none, none⟩ with
        | (.error e, s₁) => (.error e, s₁)
        | (.ok m, s₁) => (.ok (.sent true m), s₁)) ∧
    handleCommand s now freshId ⟨"list", roomId, text, toId, o⟩ =
      (.ok (.roomList (getUserRooms s)), s) ∧
    handleCommand s now freshId ⟨"history", roomId, text, toId, o⟩ =
      (.ok (.history (getRoomMessages s (roomId.getD "")
        (some (match o.bind (fun c => c.limit) with
          | some l => if l = 0 then 50 else l
          | none => 50)))), s) := by
  refine ⟨?_, rfl, rfl, rfl, rfl, rfl⟩
  cases h : handleCommand s now freshId cmd with
  | mk res s₁ =>
    cases res with
    | ok r =>
      constructor
      · simp [handleWorkroomCommand, h]
      · exact Or.inl (by simp [handleWorkroomCommand, h])
    | error e =>
      constructor
      · simp [handleWorkroomCommand, h]
      · exact Or.inr ⟨by simp [handleWorkroomCommand, h], e,
          by simp [handleWorkroomCommand, h]⟩
